import Mathlib

/-!
Verification development for the RAGE repository.

Shallow embeddings of the source functions `getCurrentTime`
(src/unnamed/part_000), `writeJsonFiles` (src/unnamed/part_001), and the
validation / answer-processing steps of the setup wizard's `prompt`
(src/src/setup.ts), together with a model of the JavaScript runtime pieces
they use (`String(n)` decimal conversion, `padStart`, `split`, `trim`,
`JSON.stringify(x, null, 2)`, `JSON.parse`, and the `fs`/`path` modules),
and theorems about them.
-/

namespace Rage

/-! ## Decimal representation of natural numbers (JavaScript `String(n)`) -/

/-- Little-endian decimal digits of `n`, with explicit fuel so that the
definition is structural.  `revDigitsAux n n` gives the digits of `n`
(empty for `n = 0`). -/
def revDigitsAux : Nat → Nat → List Nat
  | 0, _ => []
  | fuel + 1, n => if n = 0 then [] else n % 10 :: revDigitsAux fuel (n / 10)

/-- Decimal representation of a natural number, as JavaScript `String(n)`
produces for a nonnegative integer. -/
def natRepr (n : Nat) : List Char :=
  if n = 0 then ['0'] else ((revDigitsAux n n).reverse).map Nat.digitChar

/-- Value of a little-endian decimal digit list. -/
def valRev : List Nat → Nat
  | [] => 0
  | d :: ds => d + 10 * valRev ds

/-- Decimal digit test on characters (code points 48–57). -/
def isDigitChar (c : Char) : Bool := decide (48 ≤ c.toNat) && decide (c.toNat ≤ 57)

/-- Numeric value of a decimal digit character. -/
def digitVal (c : Char) : Nat := c.toNat - 48

/-- Value of a most-significant-first decimal digit character list. -/
def digitsToNat (l : List Char) : Nat := l.foldl (fun acc c => 10 * acc + digitVal c) 0

theorem valRev_revDigitsAux (fuel : Nat) : ∀ n : Nat, n ≤ fuel → valRev (revDigitsAux fuel n) = n := by
  induction fuel with
  | zero =>
    intro n h
    interval_cases n
    simp [revDigitsAux, valRev]
  | succ f ih =>
    intro n h
    by_cases hn : n = 0
    · simp [revDigitsAux, hn, valRev]
    · have hdiv : n / 10 ≤ f := by omega
      simp [revDigitsAux, hn, valRev, ih (n / 10) hdiv]
      omega

theorem revDigitsAux_lt (fuel : Nat) : ∀ n d : Nat, d ∈ revDigitsAux fuel n → d < 10 := by
  induction fuel with
  | zero => intro n d h; simp [revDigitsAux] at h
  | succ f ih =>
    intro n d h
    by_cases hn : n = 0
    · simp [revDigitsAux, hn] at h
    · simp [revDigitsAux, hn] at h
      rcases h with h | h
      · omega
      · exact ih (n / 10) d h

theorem revDigitsAux_ne_nil (fuel n : Nat) (hn : n ≠ 0) (hf : fuel ≠ 0) :
    revDigitsAux fuel n ≠ [] := by
  cases fuel with
  | zero => exact absurd rfl hf
  | succ f => simp [revDigitsAux, hn]

theorem digitVal_digitChar_fin : ∀ d : Fin 10, digitVal (Nat.digitChar d.val) = d.val := by decide

theorem digitVal_digitChar (d : Nat) (h : d < 10) : digitVal (Nat.digitChar d) = d :=
  digitVal_digitChar_fin ⟨d, h⟩

theorem isDigitChar_digitChar_fin : ∀ d : Fin 10, isDigitChar (Nat.digitChar d.val) = true := by decide

theorem isDigitChar_digitChar (d : Nat) (h : d < 10) : isDigitChar (Nat.digitChar d) = true :=
  isDigitChar_digitChar_fin ⟨d, h⟩

theorem digitsToNat_reverse_map (ds : List Nat) (h : ∀ d ∈ ds, d < 10) :
    digitsToNat (ds.reverse.map Nat.digitChar) = valRev ds := by
  induction ds with
  | nil => simp [digitsToNat, valRev]
  | cons d ds ih =>
    have hds : ∀ x ∈ ds, x < 10 := fun x hx => h x (List.mem_cons_of_mem d hx)
    have hd : d < 10 := h d (List.mem_cons_self d ds)
    simp only [List.reverse_cons, List.map_append, List.map_cons, List.map_nil]
    simp only [digitsToNat, List.foldl_append, List.foldl_cons, List.foldl_nil]
    have : List.foldl (fun acc c => 10 * acc + digitVal c) 0 (ds.reverse.map Nat.digitChar)
        = valRev ds := ih hds
    rw [this, digitVal_digitChar d hd, valRev]
    omega

theorem digitsToNat_natRepr (n : Nat) : digitsToNat (natRepr n) = n := by
  by_cases hn : n = 0
  · simp [natRepr, hn, digitsToNat, digitVal]
  · rw [natRepr, if_neg hn,
      digitsToNat_reverse_map _ (fun d hd => revDigitsAux_lt n n d hd),
      valRev_revDigitsAux n n (Nat.le_refl n)]

theorem natRepr_ne_nil (n : Nat) : natRepr n ≠ [] := by
  by_cases hn : n = 0
  · simp [natRepr, hn]
  · rw [natRepr, if_neg hn]
    intro h
    have := revDigitsAux_ne_nil n n hn hn
    simp at h
    exact this h

theorem natRepr_all_digits (n : Nat) : ∀ c ∈ natRepr n, isDigitChar c = true := by
  by_cases hn : n = 0
  · simp [natRepr, hn]
    decide
  · rw [natRepr, if_neg hn]
    intro c hc
    simp only [List.mem_map, List.mem_reverse] at hc
    obtain ⟨d, hd, rfl⟩ := hc
    exact isDigitChar_digitChar d (revDigitsAux_lt n n d hd)

/-! ## `getCurrentTime` (src/unnamed/part_000)

The source reads the clock's hour (0–23), minute (0–59) and second (0–59)
fields, converts each with `String(x)`, pads with `padStart(2, "0")` and
joins them with `":"`. -/

/-- JavaScript `s.padStart(2, "0")`. -/
def padStart2 (l : List Char) : List Char :=
  if l.length < 2 then List.replicate (2 - l.length) '0' ++ l else l

/-- Shallow embedding of `getCurrentTime` (src/unnamed/part_000), as a
function of the clock's hour / minute / second fields. -/
def getCurrentTime (hours minutes seconds : Nat) : String :=
  String.mk (padStart2 (natRepr hours) ++ ':' :: padStart2 (natRepr minutes)
    ++ ':' :: padStart2 (natRepr seconds))

/-- Exactly two decimal digit characters. -/
def isTwoDigits : List Char → Bool
  | [a, b] => isDigitChar a && isDigitChar b
  | _ => false

/-- The `HH:MM:SS` shape: three two-digit zero-padded decimal fields
separated by colons. -/
def isHHMMSS (s : String) : Bool :=
  match s.data with
  | [h1, h2, c1, m1, m2, c2, s1, s2] =>
    isTwoDigits [h1, h2] && (c1 == ':') && isTwoDigits [m1, m2] && (c2 == ':')
      && isTwoDigits [s1, s2]
  | _ => false

theorem isTwoDigits_padStart2_natRepr_fin :
    ∀ n : Fin 60, isTwoDigits (padStart2 (natRepr n.val)) = true := by decide

theorem isTwoDigits_padStart2_natRepr (n : Nat) (h : n < 60) :
    isTwoDigits (padStart2 (natRepr n)) = true :=
  isTwoDigits_padStart2_natRepr_fin ⟨n, h⟩

theorem isTwoDigits_shape (l : List Char) (h : isTwoDigits l = true) :
    ∃ a b, l = [a, b] ∧ isDigitChar a = true ∧ isDigitChar b = true := by
  match l with
  | [] => simp [isTwoDigits] at h
  | [a] => simp [isTwoDigits] at h
  | [a, b] =>
    simp [isTwoDigits] at h
    exact ⟨a, b, rfl, h.1, h.2⟩
  | a :: b :: c :: t => simp [isTwoDigits] at h

/-! ## Setup wizard: interval validation (src/src/setup.ts) -/

/-- Result of one validation step of the wizard: either a value, or
`process.exit(code)`. -/
inductive SetupStep (α : Type) where
  | ok (value : α)
  | exitProcess (code : Nat)
deriving DecidableEq

/-- Shallow embedding of the interval validation in `prompt`
(src/src/setup.ts lines 108–132): after `interval = Number(interval)`,
a falsy value (`!interval`: the number 0, or NaN which the integer model
has no counterpart of) causes `process.exit(1)`, then any value below
5000 causes `process.exit(1)`, otherwise the value is accepted. -/
def validateInterval (interval : Int) : SetupStep Int :=
  if interval = 0 then .exitProcess 1
  else if interval < 5000 then .exitProcess 1
  else .ok interval

/-! ## Setup wizard: whitelist/blacklist answer processing (src/src/setup.ts) -/

/-- JavaScript `String.prototype.split` with a single-character
separator. -/
def splitChar (sep : Char) : List Char → List (List Char)
  | [] => [[]]
  | c :: cs =>
    match splitChar sep cs with
    | [] => [[]]
    | cur :: rest => if c = sep then [] :: cur :: rest else (c :: cur) :: rest

/-- JavaScript whitespace test used by `String.prototype.trim`
(the common cases: space, tab, newline, carriage return, form feed,
vertical tab). -/
def isJsWhitespace (c : Char) : Bool :=
  c == ' ' || c == '\t' || c == '\n' || c == '\r' || c == '\x0C' || c == '\x0B'

/-- JavaScript `String.prototype.trim`. -/
def jsTrim (l : List Char) : List Char :=
  ((l.dropWhile isJsWhitespace).reverse.dropWhile isJsWhitespace).reverse

/-- Shallow embedding of the whitelist / blacklist answer processing in
`prompt` (src/src/setup.ts lines 162–184):
`answer.split(",")` followed by `.map((e) => e.trim())`. -/
def processListAnswer (answer : String) : List String :=
  ((splitChar ',' answer.data).map jsTrim).map String.mk

theorem splitChar_ne_nil (sep : Char) : ∀ l : List Char, splitChar sep l ≠ [] := by
  intro l
  cases l with
  | nil => simp [splitChar]
  | cons c cs =>
    simp only [splitChar]
    cases h : splitChar sep cs with
    | nil => simp
    | cons cur rest =>
      by_cases hc : c = sep <;> simp [hc]

/-! ## Scope Resolver (spec §4.1) -/

/-- Modelled from the spec: the Scope Resolver's `resolve` function
(§4.1) belongs to the synchronization engine, whose source file is not
among the available files; only the spec describes it.  For each database
reported by the source that is a member of the whitelist, emit one target
per collection, in source order, unless the exact `(database, collection)`
pair is a member of the blacklist. -/
def resolve (whitelist : List String) (blacklist : List (String × String)) :
    List (String × List String) → List (String × String)
  | [] => []
  | (db, cols) :: rest =>
    (if db ∈ whitelist then
      (cols.filter (fun c => decide ((db, c) ∉ blacklist))).map (fun c => (db, c))
    else []) ++ resolve whitelist blacklist rest

/-- Modelled from the spec: the splitting of a blacklist entry string
`"db/col"` into the pair `(db, col)` (spec §6: each `excludeCollections`
entry is split into `(db, col)`). -/
def splitTarget (s : String) : String × String :=
  (String.mk (s.data.takeWhile (fun c => c != '/')),
   String.mk ((s.data.dropWhile (fun c => c != '/')).drop 1))

theorem resolve_mem (W : List String) (B : List (String × String)) :
    ∀ (avail : List (String × List String)) (d c : String),
      (d, c) ∈ resolve W B avail ↔
        ((∃ cols, (d, cols) ∈ avail ∧ c ∈ cols) ∧ d ∈ W ∧ (d, c) ∉ B) := by
  intro avail
  induction avail with
  | nil => intro d c; simp [resolve]
  | cons hd rest ih =>
    intro d c
    obtain ⟨db, cols⟩ := hd
    by_cases hdb : db ∈ W
    · simp only [resolve, if_pos hdb, List.mem_append, List.mem_map, List.mem_filter,
        ih, List.mem_cons, Prod.mk.injEq, decide_eq_true_eq]
      constructor
      · rintro (⟨c0, ⟨hc0, hnb⟩, rfl, rfl⟩ | ⟨⟨cols0, h1, h2⟩, h3, h4⟩)
        · exact ⟨⟨cols, Or.inl ⟨rfl, rfl⟩, hc0⟩, hdb, hnb⟩
        · exact ⟨⟨cols0, Or.inr h1, h2⟩, h3, h4⟩
      · rintro ⟨⟨cols0, h1 | h1, h2⟩, h3, h4⟩
        · obtain ⟨rfl, rfl⟩ := h1
          exact Or.inl ⟨c, ⟨h2, h4⟩, rfl, rfl⟩
        · exact Or.inr ⟨⟨cols0, h1, h2⟩, h3, h4⟩
    · simp only [resolve, if_neg hdb, List.nil_append, ih, List.mem_cons, Prod.mk.injEq]
      constructor
      · rintro ⟨⟨cols0, h1, h2⟩, h3, h4⟩
        exact ⟨⟨cols0, Or.inr h1, h2⟩, h3, h4⟩
      · rintro ⟨⟨cols0, h1 | h1, h2⟩, h3, h4⟩
        · obtain ⟨rfl, rfl⟩ := h1
          exact absurd h3 hdb
        · exact ⟨⟨cols0, h1, h2⟩, h3, h4⟩

/-! ## JSON values

Model of the JSON-compatible data (`dataToWrite: any[] | Object`) that
`writeJsonFiles` serializes.  Numbers are modelled by integers (the
subset of JavaScript numbers whose serialization round-trips exactly);
arrays and objects are mutual lists so that all recursions below are
structural. -/

mutual
inductive Json where
  | null
  | bool (b : Bool)
  | num (n : Int)
  | str (s : List Char)
  | arr (elems : JsonList)
  | obj (fields : JsonFields)

inductive JsonList where
  | nil
  | cons (hd : Json) (tl : JsonList)

inductive JsonFields where
  | nil
  | cons (key : List Char) (value : Json) (tl : JsonFields)
end

/-! ## `JSON.stringify(value, null, 2)` -/

/-- Lowercase hexadecimal digit character. -/
def hexDigit (d : Nat) : Char := if d < 10 then Nat.digitChar d else Char.ofNat (87 + d)

/-- The escape sequence `JSON.stringify` produces for one character of a
string: `\"` and `\\`, the short escapes `\b \t \n \f \r`, `\u00xx` for
the remaining control characters, and the character itself otherwise. -/
def escapeChar (c : Char) : List Char :=
  if c = '"' then ['\\', '"']
  else if c = '\\' then ['\\', '\\']
  else if c = '\x08' then ['\\', 'b']
  else if c = '\t' then ['\\', 't']
  else if c = '\n' then ['\\', 'n']
  else if c = '\x0C' then ['\\', 'f']
  else if c = '\r' then ['\\', 'r']
  else if c.toNat < 32 then ['\\', 'u', '0', '0', hexDigit (c.toNat / 16), hexDigit (c.toNat % 16)]
  else [c]

/-- The quoted serialization of a JSON string. -/
def quoteStr (s : List Char) : List Char := '"' :: (s.flatMap escapeChar ++ ['"'])

/-- Decimal representation of an integer (JavaScript `String(n)` /
`JSON.stringify(n)`). -/
def intRepr : Int → List Char
  | .ofNat n => natRepr n
  | .negSucc m => '-' :: natRepr (m + 1)

/-- `2 * d` spaces: the indentation `JSON.stringify(x, null, 2)` puts at
nesting depth `d`. -/
def ind (d : Nat) : List Char := List.replicate (2 * d) ' '

mutual
/-- Serialization of a JSON value at nesting depth `d`, exactly as
`JSON.stringify(value, null, 2)` lays it out: empty arrays and objects
are `[]` and `\x7b\x7d`; nonempty ones put every element on its own line,
indented two spaces per depth level, with the closing bracket on a line
indented to the enclosing depth. -/
def serVal : Json → Nat → List Char
  | .null, _ => ['n', 'u', 'l', 'l']
  | .bool true, _ => ['t', 'r', 'u', 'e']
  | .bool false, _ => ['f', 'a', 'l', 's', 'e']
  | .num n, _ => intRepr n
  | .str s, _ => quoteStr s
  | .arr .nil, _ => ['[', ']']
  | .arr (.cons x xs), d =>
    '[' :: '\n' :: (ind (d + 1) ++ serVal x (d + 1) ++ serListRest xs (d + 1)
      ++ '\n' :: (ind d ++ [']']))
  | .obj .nil, _ => ['\x7b', '\x7d']
  | .obj (.cons k v fs), d =>
    '\x7b' :: '\n' :: (ind (d + 1) ++ quoteStr k ++ ':' :: ' ' :: serVal v (d + 1)
      ++ serFieldsRest fs (d + 1) ++ '\n' :: (ind d ++ ['\x7d']))

/-- The remaining elements of a nonempty array: `,\n` + indentation +
element, repeated. -/
def serListRest : JsonList → Nat → List Char
  | .nil, _ => []
  | .cons x xs, d => ',' :: '\n' :: (ind d ++ serVal x d ++ serListRest xs d)

/-- The remaining fields of a nonempty object: `,\n` + indentation +
quoted key + `: ` + value, repeated. -/
def serFieldsRest : JsonFields → Nat → List Char
  | .nil, _ => []
  | .cons k v fs, d =>
    ',' :: '\n' :: (ind d ++ quoteStr k ++ ':' :: ' ' :: serVal v d ++ serFieldsRest fs d)
end

/-- `JSON.stringify(value, null, 2)`, the serialization `writeJsonFiles`
applies to `dataToWrite`. -/
def stringify2 (j : Json) : String := String.mk (serVal j 0)

/-! ## `JSON.parse`

A recursive-descent reader for JSON text, used to state the File Writer
round-trip property (reading a written file back).  The mutual value
parsers carry explicit fuel so that all recursion is structural; the
entry point `jsonParse` supplies fuel from the input length. -/

/-- JSON whitespace. -/
def isWs (c : Char) : Bool := c == ' ' || c == '\n' || c == '\t' || c == '\r'

/-- Drop leading JSON whitespace. -/
def skipWs (l : List Char) : List Char := l.dropWhile isWs

/-- Consume an expected literal character sequence. -/
def expectL : List Char → List Char → Option (List Char)
  | [], input => some input
  | _ :: _, [] => none
  | c :: cs, x :: xs => if x = c then expectL cs xs else none

/-- Numeric value of a hexadecimal digit character. -/
def hexVal (c : Char) : Option Nat :=
  if 48 ≤ c.toNat ∧ c.toNat ≤ 57 then some (c.toNat - 48)
  else if 97 ≤ c.toNat ∧ c.toNat ≤ 102 then some (c.toNat - 87)
  else if 65 ≤ c.toNat ∧ c.toNat ≤ 70 then some (c.toNat - 55)
  else none

/-- The character encoded by a two-character JSON escape sequence. -/
def unescapeChar (e : Char) : Option Char :=
  if e = '"' then some '"'
  else if e = '\\' then some '\\'
  else if e = '/' then some '/'
  else if e = 'b' then some '\x08'
  else if e = 't' then some '\t'
  else if e = 'n' then some '\n'
  else if e = 'f' then some '\x0C'
  else if e = 'r' then some '\r'
  else none

/-- Read the body of a JSON string literal (the opening quote already
consumed), returning the decoded characters and the input after the
closing quote. -/
def parseStrBody : List Char → Option (List Char × List Char)
  | [] => none
  | c :: r =>
    if c = '"' then some ([], r)
    else if c = '\\' then
      match r with
      | [] => none
      | e :: r2 =>
        if e = 'u' then
          match r2 with
          | h1 :: h2 :: h3 :: h4 :: r3 =>
            match hexVal h1, hexVal h2, hexVal h3, hexVal h4 with
            | some a, some b, some x, some y =>
              (parseStrBody r3).map
                (fun p => (Char.ofNat (4096 * a + 256 * b + 16 * x + y) :: p.1, p.2))
            | _, _, _, _ => none
          | _ => none
        else
          match unescapeChar e with
          | some u => (parseStrBody r2).map (fun p => (u :: p.1, p.2))
          | none => none
    else (parseStrBody r).map (fun p => (c :: p.1, p.2))

/-- Read a nonempty run of decimal digits as a natural number. -/
def parseNatNum (input : List Char) : Option (Nat × List Char) :=
  if input.takeWhile isDigitChar = [] then none
  else some (digitsToNat (input.takeWhile isDigitChar), input.dropWhile isDigitChar)

/-- Body of `parseVal` with the lower-fuel recursive calls abstracted as
function arguments `pv`, `pa`, `pf`, `po`.  The input must start at the
value's first character (leading whitespace is skipped at the call
sites). -/
def parseValCore (pv : List Char → Option (Json × List Char))
    (pa : List Char → Option (JsonList × List Char))
    (pf : List Char → Option ((List Char × Json) × List Char))
    (po : List Char → Option (JsonFields × List Char)) :
    List Char → Option (Json × List Char)
  | [] => none
  | c :: r =>
    if c = 'n' then
      match expectL ['u', 'l', 'l'] r with
      | some r2 => some (.null, r2)
      | none => none
    else if c = 't' then
      match expectL ['r', 'u', 'e'] r with
      | some r2 => some (.bool true, r2)
      | none => none
    else if c = 'f' then
      match expectL ['a', 'l', 's', 'e'] r with
      | some r2 => some (.bool false, r2)
      | none => none
    else if c = '"' then
      match parseStrBody r with
      | some (s, r2) => some (.str s, r2)
      | none => none
    else if c = '-' then
      match parseNatNum r with
      | some (n, r2) => some (.num (-(n : Int)), r2)
      | none => none
    else if c = '[' then
      match r with
      | [] => none
      | c2 :: r2 =>
        if c2 = ']' then some (.arr .nil, r2)
        else
          match pv (skipWs (c2 :: r2)) with
          | some (v, r3) =>
            match pa (skipWs r3) with
            | some (vs, r4) => some (.arr (.cons v vs), r4)
            | none => none
          | none => none
    else if c = '\x7b' then
      match r with
      | [] => none
      | c2 :: r2 =>
        if c2 = '\x7d' then some (.obj .nil, r2)
        else
          match pf (skipWs (c2 :: r2)) with
          | some (kv, r3) =>
            match po (skipWs r3) with
            | some (fs, r4) => some (.obj (.cons kv.1 kv.2 fs), r4)
            | none => none
          | none => none
    else if isDigitChar c then
      match parseNatNum (c :: r) with
      | some (n, r2) => some (.num (n : Int), r2)
      | none => none
    else none

/-- Body of `parseField`: one `"key": value` field of an object. -/
def parseFieldCore (pv : List Char → Option (Json × List Char)) :
    List Char → Option ((List Char × Json) × List Char)
  | [] => none
  | c :: r =>
    if c = '"' then
      match parseStrBody r with
      | some (k, r2) =>
        match skipWs r2 with
        | [] => none
        | c2 :: r3 =>
          if c2 = ':' then
            match pv (skipWs r3) with
            | some (v, r4) => some ((k, v), r4)
            | none => none
          else none
      | none => none
    else none

/-- Body of `parseArrTail`: the rest of an array after one element,
either the closing bracket or a comma followed by the next element. -/
def parseArrTailCore (pv : List Char → Option (Json × List Char))
    (pa : List Char → Option (JsonList × List Char)) :
    List Char → Option (JsonList × List Char)
  | [] => none
  | c :: r =>
    if c = ']' then some (.nil, r)
    else if c = ',' then
      match pv (skipWs r) with
      | some (v, r2) =>
        match pa (skipWs r2) with
        | some (vs, r3) => some (.cons v vs, r3)
        | none => none
      | none => none
    else none

/-- Body of `parseObjTail`: the rest of an object after one field,
either the closing brace or a comma followed by the next field. -/
def parseObjTailCore (pf : List Char → Option ((List Char × Json) × List Char))
    (po : List Char → Option (JsonFields × List Char)) :
    List Char → Option (JsonFields × List Char)
  | [] => none
  | c :: r =>
    if c = '\x7d' then some (.nil, r)
    else if c = ',' then
      match pf (skipWs r) with
      | some (kv, r2) =>
        match po (skipWs r2) with
        | some (fs, r3) => some (.cons kv.1 kv.2 fs, r3)
        | none => none
      | none => none
    else none

mutual
/-- Read one JSON value (fueled). -/
def parseVal : Nat → List Char → Option (Json × List Char)
  | 0, _ => none
  | fuel + 1, input =>
    parseValCore (parseVal fuel) (parseArrTail fuel) (parseField fuel) (parseObjTail fuel) input

/-- Read one `"key": value` field of an object (fueled). -/
def parseField : Nat → List Char → Option ((List Char × Json) × List Char)
  | 0, _ => none
  | fuel + 1, input => parseFieldCore (parseVal fuel) input

/-- Read the rest of an array after one element (fueled). -/
def parseArrTail : Nat → List Char → Option (JsonList × List Char)
  | 0, _ => none
  | fuel + 1, input => parseArrTailCore (parseVal fuel) (parseArrTail fuel) input

/-- Read the rest of an object after one field (fueled). -/
def parseObjTail : Nat → List Char → Option (JsonFields × List Char)
  | 0, _ => none
  | fuel + 1, input => parseObjTailCore (parseField fuel) (parseObjTail fuel) input
end

/-- `JSON.parse`: read one JSON value from the whole input, allowing
surrounding whitespace, rejecting trailing content. -/
def jsonParse (s : String) : Option Json :=
  match parseVal (s.length + 1) (skipWs s.data) with
  | some (j, r) => if skipWs r = [] then some j else none
  | none => none

mutual
/-- Fuel bound sufficient for `parseVal` to read a serialized value. -/
def sizeJ : Json → Nat
  | .null => 1
  | .bool _ => 1
  | .num _ => 1
  | .str _ => 1
  | .arr xs => sizeL xs + 1
  | .obj fs => sizeF fs + 1

/-- Fuel bound sufficient for `parseArrTail`. -/
def sizeL : JsonList → Nat
  | .nil => 1
  | .cons x xs => sizeJ x + sizeL xs + 1

/-- Fuel bound sufficient for `parseObjTail`. -/
def sizeF : JsonFields → Nat
  | .nil => 1
  | .cons _ v fs => sizeJ v + sizeF fs + 2
end

/-! ## Round-trip helper lemmas -/

theorem skipWs_cons_not (c : Char) (l : List Char) (h : isWs c = false) :
    skipWs (c :: l) = c :: l := by
  simp [skipWs, List.dropWhile, h]

theorem skipWs_cons_ws (c : Char) (l : List Char) (h : isWs c = true) :
    skipWs (c :: l) = skipWs l := by
  simp [skipWs, List.dropWhile, h]

theorem skipWs_replicate_space (n : Nat) (l : List Char) :
    skipWs (List.replicate n ' ' ++ l) = skipWs l := by
  induction n with
  | zero => simp
  | succ m ih =>
    rw [List.replicate_succ, List.cons_append, skipWs_cons_ws _ _ (by decide)]
    exact ih

theorem skipWs_ind (d : Nat) (l : List Char) : skipWs (ind d ++ l) = skipWs l :=
  skipWs_replicate_space (2 * d) l

theorem expectL_self : ∀ (lit rest : List Char), expectL lit (lit ++ rest) = some rest := by
  intro lit
  induction lit with
  | nil => intro rest; simp [expectL]
  | cons c cs ih => intro rest; simp [expectL, ih]

theorem takeWhile_append_of_all (p : Char → Bool) (a b : List Char)
    (h : ∀ c ∈ a, p c = true) : (a ++ b).takeWhile p = a ++ b.takeWhile p := by
  induction a with
  | nil => simp
  | cons c cs ih =>
    have hc : p c = true := h c (List.mem_cons_self c cs)
    simp only [List.cons_append, List.takeWhile_cons, hc, if_true]
    rw [ih (fun x hx => h x (List.mem_cons_of_mem c hx))]

theorem dropWhile_append_of_all (p : Char → Bool) (a b : List Char)
    (h : ∀ c ∈ a, p c = true) : (a ++ b).dropWhile p = b.dropWhile p := by
  induction a with
  | nil => simp
  | cons c cs ih =>
    have hc : p c = true := h c (List.mem_cons_self c cs)
    simp only [List.cons_append, List.dropWhile_cons, hc, if_true]
    exact ih (fun x hx => h x (List.mem_cons_of_mem c hx))

/-- The continuation after a parsed value never begins with a decimal
digit (so that number parsing stops exactly at the value's end). -/
def noLeadingDigit : List Char → Bool
  | [] => true
  | c :: _ => !isDigitChar c

theorem takeWhile_eq_nil_of_noLeadingDigit (l : List Char) (h : noLeadingDigit l = true) :
    l.takeWhile isDigitChar = [] := by
  cases l with
  | nil => simp
  | cons c r =>
    simp only [noLeadingDigit, Bool.not_eq_true'] at h
    simp [List.takeWhile_cons, h]

theorem dropWhile_eq_self_of_noLeadingDigit (l : List Char) (h : noLeadingDigit l = true) :
    l.dropWhile isDigitChar = l := by
  cases l with
  | nil => simp
  | cons c r =>
    simp only [noLeadingDigit, Bool.not_eq_true'] at h
    simp [List.dropWhile_cons, h]

theorem parseNatNum_natRepr (n : Nat) (rest : List Char) (h : noLeadingDigit rest = true) :
    parseNatNum (natRepr n ++ rest) = some (n, rest) := by
  have htake : (natRepr n ++ rest).takeWhile isDigitChar = natRepr n := by
    rw [takeWhile_append_of_all _ _ _ (natRepr_all_digits n),
      takeWhile_eq_nil_of_noLeadingDigit rest h, List.append_nil]
  have hdrop : (natRepr n ++ rest).dropWhile isDigitChar = rest := by
    rw [dropWhile_append_of_all _ _ _ (natRepr_all_digits n),
      dropWhile_eq_self_of_noLeadingDigit rest h]
  rw [parseNatNum, htake, hdrop, if_neg (natRepr_ne_nil n), digitsToNat_natRepr]

theorem isWs_false_of_digit (c : Char) (h : isDigitChar c = true) : isWs c = false := by
  cases hw : isWs c with
  | false => rfl
  | true =>
    exfalso
    simp only [isWs, Bool.or_eq_true, beq_iff_eq] at hw
    rcases hw with ((rfl | rfl) | rfl) | rfl <;> exact absurd h (by decide)

theorem digit_not_reserved (c : Char) (h : isDigitChar c = true) :
    c ≠ 'n' ∧ c ≠ 't' ∧ c ≠ 'f' ∧ c ≠ '"' ∧ c ≠ '-' ∧ c ≠ '[' ∧ c ≠ '\x7b' := by
  refine ⟨?_, ?_, ?_, ?_, ?_, ?_, ?_⟩ <;>
    (rintro rfl
     exact absurd h (by decide))

theorem natRepr_head_digit (n : Nat) :
    ∃ c t, natRepr n = c :: t ∧ isDigitChar c = true := by
  cases hrep : natRepr n with
  | nil => exact absurd hrep (natRepr_ne_nil n)
  | cons c t =>
    refine ⟨c, t, rfl, ?_⟩
    exact natRepr_all_digits n c (hrep ▸ List.mem_cons_self c t)

theorem hexVal_hexDigit_fin : ∀ d : Fin 16, hexVal (hexDigit d.val) = some d.val := by decide

theorem hexVal_hexDigit (d : Nat) (h : d < 16) : hexVal (hexDigit d) = some d :=
  hexVal_hexDigit_fin ⟨d, h⟩

theorem parseStrBody_escape (s : List Char) :
    ∀ rest : List Char, parseStrBody (s.flatMap escapeChar ++ '"' :: rest) = some (s, rest) := by
  induction s with
  | nil =>
    intro rest
    unfold parseStrBody
    simp
  | cons c s ih =>
    intro rest
    rw [List.flatMap_cons, List.append_assoc]
    by_cases h1 : c = '"'
    · subst h1
      rw [escapeChar, if_pos rfl]
      unfold parseStrBody
      simp [unescapeChar, ih rest]
    by_cases h2 : c = '\\'
    · subst h2
      rw [escapeChar, if_neg (by decide), if_pos rfl]
      unfold parseStrBody
      simp [unescapeChar, ih rest]
    by_cases h3 : c = '\x08'
    · subst h3
      rw [escapeChar, if_neg (by decide), if_neg (by decide), if_pos rfl]
      unfold parseStrBody
      simp [unescapeChar, ih rest]
    by_cases h4 : c = '\t'
    · subst h4
      rw [escapeChar, if_neg (by decide), if_neg (by decide), if_neg (by decide), if_pos rfl]
      unfold parseStrBody
      simp [unescapeChar, ih rest]
    by_cases h5 : c = '\n'
    · subst h5
      rw [escapeChar, if_neg (by decide), if_neg (by decide), if_neg (by decide),
        if_neg (by decide), if_pos rfl]
      unfold parseStrBody
      simp [unescapeChar, ih rest]
    by_cases h6 : c = '\x0C'
    · subst h6
      rw [escapeChar, if_neg (by decide), if_neg (by decide), if_neg (by decide),
        if_neg (by decide), if_neg (by decide), if_pos rfl]
      unfold parseStrBody
      simp [unescapeChar, ih rest]
    by_cases h7 : c = '\r'
    · subst h7
      rw [escapeChar, if_neg (by decide), if_neg (by decide), if_neg (by decide),
        if_neg (by decide), if_neg (by decide), if_neg (by decide), if_pos rfl]
      unfold parseStrBody
      simp [unescapeChar, ih rest]
    by_cases h8 : c.toNat < 32
    · rw [escapeChar, if_neg h1, if_neg h2, if_neg h3, if_neg h4, if_neg h5, if_neg h6,
        if_neg h7, if_pos h8]
      have hdiv : c.toNat / 16 < 16 := by omega
      have hmod : c.toNat % 16 < 16 := by omega
      unfold parseStrBody
      simp [show hexVal '0' = some 0 from by decide, hexVal_hexDigit _ hdiv,
        hexVal_hexDigit _ hmod, ih rest, Nat.div_add_mod, Char.ofNat_toNat]
    · rw [escapeChar, if_neg h1, if_neg h2, if_neg h3, if_neg h4, if_neg h5, if_neg h6,
        if_neg h7, if_neg h8]
      unfold parseStrBody
      simp only [List.cons_append, List.nil_append, if_neg h1, if_neg h2]
      rw [ih rest]
      rfl

theorem skipWs_serVal (j : Json) (d : Nat) (l : List Char) :
    skipWs (serVal j d ++ l) = serVal j d ++ l := by
  cases j with
  | null => exact skipWs_cons_not _ _ (by decide)
  | bool b => cases b <;> exact skipWs_cons_not _ _ (by decide)
  | num n =>
    cases n with
    | ofNat m =>
      obtain ⟨c, t, hrep, hc⟩ := natRepr_head_digit m
      show skipWs (intRepr (Int.ofNat m) ++ l) = intRepr (Int.ofNat m) ++ l
      rw [intRepr, hrep, List.cons_append, skipWs_cons_not _ _ (isWs_false_of_digit c hc)]
    | negSucc m =>
      exact skipWs_cons_not _ _ (by decide)
  | str s => exact skipWs_cons_not _ _ (by decide)
  | arr xs => cases xs <;> exact skipWs_cons_not _ _ (by decide)
  | obj fs => cases fs <;> exact skipWs_cons_not _ _ (by decide)

theorem noLeadingDigit_serListRest (xs : JsonList) (d : Nat) (l : List Char) :
    noLeadingDigit (serListRest xs d ++ '\n' :: l) = true := by
  cases xs <;> simp [serListRest, noLeadingDigit] <;> decide

theorem noLeadingDigit_serFieldsRest (fs : JsonFields) (d : Nat) (l : List Char) :
    noLeadingDigit (serFieldsRest fs d ++ '\n' :: l) = true := by
  cases fs <;> simp [serFieldsRest, noLeadingDigit] <;> decide

theorem skipWs_quoteStr (k l : List Char) : skipWs (quoteStr k ++ l) = quoteStr k ++ l := by
  rw [quoteStr, List.cons_append, skipWs_cons_not _ _ (by decide)]

theorem parseValCore_arr_step (pv : List Char → Option (Json × List Char))
    (pa : List Char → Option (JsonList × List Char))
    (pf : List Char → Option ((List Char × Json) × List Char))
    (po : List Char → Option (JsonFields × List Char))
    (c2 : Char) (r2 : List Char) (v : Json) (r3 : List Char) (vs : JsonList) (r4 : List Char)
    (hc2 : ¬c2 = ']') (h1 : pv (skipWs (c2 :: r2)) = some (v, r3))
    (h2 : pa (skipWs r3) = some (vs, r4)) :
    parseValCore pv pa pf po ('[' :: c2 :: r2) = some (.arr (.cons v vs), r4) := by
  simp [parseValCore, hc2, h1, h2]

theorem parseValCore_obj_step (pv : List Char → Option (Json × List Char))
    (pa : List Char → Option (JsonList × List Char))
    (pf : List Char → Option ((List Char × Json) × List Char))
    (po : List Char → Option (JsonFields × List Char))
    (c2 : Char) (r2 k : List Char) (v : Json) (r3 : List Char) (fs : JsonFields) (r4 : List Char)
    (hc2 : ¬c2 = '\x7d') (h1 : pf (skipWs (c2 :: r2)) = some ((k, v), r3))
    (h2 : po (skipWs r3) = some (fs, r4)) :
    parseValCore pv pa pf po ('\x7b' :: c2 :: r2) = some (.obj (.cons k v fs), r4) := by
  simp [parseValCore, hc2, h1, h2]

theorem parseArrTailCore_step (pv : List Char → Option (Json × List Char))
    (pa : List Char → Option (JsonList × List Char))
    (r : List Char) (v : Json) (r2 : List Char) (vs : JsonList) (r3 : List Char)
    (h1 : pv (skipWs r) = some (v, r2)) (h2 : pa (skipWs r2) = some (vs, r3)) :
    parseArrTailCore pv pa (',' :: r) = some (.cons v vs, r3) := by
  simp [parseArrTailCore, h1, h2]

theorem parseObjTailCore_step (pf : List Char → Option ((List Char × Json) × List Char))
    (po : List Char → Option (JsonFields × List Char))
    (r k : List Char) (v : Json) (r2 : List Char) (fs : JsonFields) (r3 : List Char)
    (h1 : pf (skipWs r) = some ((k, v), r2)) (h2 : po (skipWs r2) = some (fs, r3)) :
    parseObjTailCore pf po (',' :: r) = some (.cons k v fs, r3) := by
  simp [parseObjTailCore, h1, h2]

theorem parseField_ser (k : List Char) (v : Json) (d g : Nat) (rest2 : List Char)
    (hv : parseVal g (serVal v d ++ rest2) = some (v, rest2)) :
    parseField (g + 1) (quoteStr k ++ ':' :: ' ' :: (serVal v d ++ rest2)) = some ((k, v), rest2) := by
  have hq : quoteStr k ++ ':' :: ' ' :: (serVal v d ++ rest2)
      = '"' :: (k.flatMap escapeChar ++ '"' :: (':' :: ' ' :: (serVal v d ++ rest2))) := by
    simp [quoteStr]
  have hv2 : parseVal g (skipWs (' ' :: (serVal v d ++ rest2))) = some (v, rest2) := by
    rw [skipWs_cons_ws _ _ (by decide), skipWs_serVal]
    exact hv
  rw [hq]
  simp only [parseField]
  simp [parseFieldCore, parseStrBody_escape,
    skipWs_cons_not ':' _ (by decide), hv2]

mutual
theorem parseVal_ser : ∀ (j : Json) (d fuel : Nat) (rest : List Char),
    sizeJ j ≤ fuel → noLeadingDigit rest = true →
    parseVal fuel (serVal j d ++ rest) = some (j, rest)
  | .null, d, fuel, rest, hf, hr => by
    obtain ⟨f, rfl⟩ : ∃ f, fuel = f + 1 := ⟨fuel - 1, by simp [sizeJ] at hf; omega⟩
    unfold serVal
    simp only [parseVal]
    simp [parseValCore, expectL]
  | .bool true, d, fuel, rest, hf, hr => by
    obtain ⟨f, rfl⟩ : ∃ f, fuel = f + 1 := ⟨fuel - 1, by simp [sizeJ] at hf; omega⟩
    unfold serVal
    simp only [parseVal]
    simp [parseValCore, expectL]
  | .bool false, d, fuel, rest, hf, hr => by
    obtain ⟨f, rfl⟩ : ∃ f, fuel = f + 1 := ⟨fuel - 1, by simp [sizeJ] at hf; omega⟩
    unfold serVal
    simp only [parseVal]
    simp [parseValCore, expectL]
  | .num (Int.ofNat m), d, fuel, rest, hf, hr => by
    obtain ⟨f, rfl⟩ : ∃ f, fuel = f + 1 := ⟨fuel - 1, by simp [sizeJ] at hf; omega⟩
    obtain ⟨c, t, hrep, hc⟩ := natRepr_head_digit m
    obtain ⟨hn1, hn2, hn3, hn4, hn5, hn6, hn7⟩ := digit_not_reserved c hc
    have hstep : serVal (.num (Int.ofNat m)) d ++ rest = c :: (t ++ rest) := by
      show intRepr (Int.ofNat m) ++ rest = c :: (t ++ rest)
      rw [intRepr, hrep, List.cons_append]
    rw [hstep]
    simp only [parseVal, parseValCore]
    rw [if_neg hn1, if_neg hn2, if_neg hn3, if_neg hn4, if_neg hn5, if_neg hn6, if_neg hn7,
      if_pos hc, show c :: (t ++ rest) = natRepr m ++ rest from by rw [hrep, List.cons_append],
      parseNatNum_natRepr m rest hr]
    rfl
  | .num (Int.negSucc m), d, fuel, rest, hf, hr => by
    obtain ⟨f, rfl⟩ : ∃ f, fuel = f + 1 := ⟨fuel - 1, by simp [sizeJ] at hf; omega⟩
    show parseVal (f + 1) (intRepr (Int.negSucc m) ++ rest) = some (.num (Int.negSucc m), rest)
    rw [intRepr, List.cons_append]
    simp only [parseVal, parseValCore]
    simp [parseNatNum_natRepr (m + 1) rest hr, Int.negSucc_eq]
  | .str s, d, fuel, rest, hf, hr => by
    obtain ⟨f, rfl⟩ : ∃ f, fuel = f + 1 := ⟨fuel - 1, by simp [sizeJ] at hf; omega⟩
    unfold serVal
    simp only [parseVal]
    simp [quoteStr, parseValCore, parseStrBody_escape]
  | .arr .nil, d, fuel, rest, hf, hr => by
    obtain ⟨f, rfl⟩ : ∃ f, fuel = f + 1 := ⟨fuel - 1, by simp [sizeJ] at hf; omega⟩
    unfold serVal
    simp only [parseVal]
    simp [parseValCore]
  | .arr (.cons x xs), d, fuel, rest, hf, hr => by
    have hsz : sizeJ x + sizeL xs + 2 ≤ fuel := by
      simp [sizeJ, sizeL] at hf
      omega
    obtain ⟨f, rfl⟩ : ∃ f, fuel = f + 1 := ⟨fuel - 1, by omega⟩
    have hinput : serVal (.arr (.cons x xs)) d ++ rest
        = '[' :: '\n' :: (ind (d + 1) ++ (serVal x (d + 1)
          ++ (serListRest xs (d + 1) ++ '\n' :: (ind d ++ (']' :: rest))))) := by
      simp [serVal, List.append_assoc]
    have hZ : noLeadingDigit (serListRest xs (d + 1) ++ '\n' :: (ind d ++ (']' :: rest))) = true :=
      noLeadingDigit_serListRest xs (d + 1) _
    have h1 : parseVal f (skipWs ('\n' :: (ind (d + 1) ++ (serVal x (d + 1)
        ++ (serListRest xs (d + 1) ++ '\n' :: (ind d ++ (']' :: rest)))))))
        = some (x, serListRest xs (d + 1) ++ '\n' :: (ind d ++ (']' :: rest))) := by
      rw [skipWs_cons_ws _ _ (by decide), skipWs_ind, skipWs_serVal]
      exact parseVal_ser x (d + 1) f _ (by omega) hZ
    have h2 := parseArrTail_ser xs (d + 1) d f rest (by omega) hr
    rw [hinput]
    simp only [parseVal]
    exact parseValCore_arr_step _ _ _ _ _ _ _ _ _ _ (by decide) h1 h2
  | .obj .nil, d, fuel, rest, hf, hr => by
    obtain ⟨f, rfl⟩ : ∃ f, fuel = f + 1 := ⟨fuel - 1, by simp [sizeJ] at hf; omega⟩
    unfold serVal
    simp only [parseVal]
    simp [parseValCore]
  | .obj (.cons k v fs), d, fuel, rest, hf, hr => by
    have hsz : sizeJ v + sizeF fs + 3 ≤ fuel := by
      simp [sizeJ, sizeF] at hf
      omega
    obtain ⟨f, rfl⟩ : ∃ f, fuel = f + 1 := ⟨fuel - 1, by omega⟩
    obtain ⟨g, hg⟩ : ∃ g, f = g + 1 := ⟨f - 1, by omega⟩
    have hinput : serVal (.obj (.cons k v fs)) d ++ rest
        = '\x7b' :: '\n' :: (ind (d + 1) ++ (quoteStr k ++ ':' :: ' ' :: (serVal v (d + 1)
          ++ (serFieldsRest fs (d + 1) ++ '\n' :: (ind d ++ ('\x7d' :: rest)))))) := by
      simp [serVal, List.append_assoc]
    have hZ : noLeadingDigit (serFieldsRest fs (d + 1)
        ++ '\n' :: (ind d ++ ('\x7d' :: rest))) = true :=
      noLeadingDigit_serFieldsRest fs (d + 1) _
    have hv : parseVal g (serVal v (d + 1)
        ++ (serFieldsRest fs (d + 1) ++ '\n' :: (ind d ++ ('\x7d' :: rest))))
        = some (v, serFieldsRest fs (d + 1) ++ '\n' :: (ind d ++ ('\x7d' :: rest))) :=
      parseVal_ser v (d + 1) g _ (by omega) hZ
    have h1 : parseField f (skipWs ('\n' :: (ind (d + 1) ++ (quoteStr k
        ++ ':' :: ' ' :: (serVal v (d + 1) ++ (serFieldsRest fs (d + 1)
          ++ '\n' :: (ind d ++ ('\x7d' :: rest))))))))
        = some ((k, v), serFieldsRest fs (d + 1) ++ '\n' :: (ind d ++ ('\x7d' :: rest))) := by
      rw [skipWs_cons_ws _ _ (by decide), skipWs_ind, skipWs_quoteStr, hg]
      exact parseField_ser k v (d + 1) g _ hv
    have h2 := parseObjTail_ser fs (d + 1) d f rest (by omega) hr
    rw [hinput]
    simp only [parseVal]
    exact parseValCore_obj_step _ _ _ _ _ _ _ _ _ _ _ (by decide) h1 h2

theorem parseArrTail_ser : ∀ (xs : JsonList) (d d2 fuel : Nat) (rest : List Char),
    sizeL xs ≤ fuel → noLeadingDigit rest = true →
    parseArrTail fuel (skipWs (serListRest xs d ++ '\n' :: (ind d2 ++ (']' :: rest))))
      = some (xs, rest)
  | .nil, d, d2, fuel, rest, hf, hr => by
    obtain ⟨f, rfl⟩ : ∃ f, fuel = f + 1 := ⟨fuel - 1, by simp [sizeL] at hf; omega⟩
    rw [serListRest, List.nil_append, skipWs_cons_ws _ _ (by decide), skipWs_ind,
      skipWs_cons_not _ _ (by decide)]
    simp only [parseArrTail]
    simp [parseArrTailCore]
  | .cons x xs, d, d2, fuel, rest, hf, hr => by
    have hsz : sizeJ x + sizeL xs + 1 ≤ fuel := by
      simp [sizeL] at hf
      omega
    obtain ⟨f, rfl⟩ : ∃ f, fuel = f + 1 := ⟨fuel - 1, by omega⟩
    have hinput : serListRest (.cons x xs) d ++ '\n' :: (ind d2 ++ (']' :: rest))
        = ',' :: '\n' :: (ind d ++ (serVal x d
          ++ (serListRest xs d ++ '\n' :: (ind d2 ++ (']' :: rest))))) := by
      simp [serListRest, List.append_assoc]
    have hZ : noLeadingDigit (serListRest xs d ++ '\n' :: (ind d2 ++ (']' :: rest))) = true :=
      noLeadingDigit_serListRest xs d _
    have h1 : parseVal f (skipWs ('\n' :: (ind d ++ (serVal x d
        ++ (serListRest xs d ++ '\n' :: (ind d2 ++ (']' :: rest)))))))
        = some (x, serListRest xs d ++ '\n' :: (ind d2 ++ (']' :: rest))) := by
      rw [skipWs_cons_ws _ _ (by decide), skipWs_ind, skipWs_serVal]
      exact parseVal_ser x d f _ (by omega) hZ
    have h2 := parseArrTail_ser xs d d2 f rest (by omega) hr
    rw [hinput, skipWs_cons_not _ _ (by decide)]
    simp only [parseArrTail]
    exact parseArrTailCore_step _ _ _ _ _ _ _ h1 h2

theorem parseObjTail_ser : ∀ (fs : JsonFields) (d d2 fuel : Nat) (rest : List Char),
    sizeF fs ≤ fuel → noLeadingDigit rest = true →
    parseObjTail fuel (skipWs (serFieldsRest fs d ++ '\n' :: (ind d2 ++ ('\x7d' :: rest))))
      = some (fs, rest)
  | .nil, d, d2, fuel, rest, hf, hr => by
    obtain ⟨f, rfl⟩ : ∃ f, fuel = f + 1 := ⟨fuel - 1, by simp [sizeF] at hf; omega⟩
    rw [serFieldsRest, List.nil_append, skipWs_cons_ws _ _ (by decide), skipWs_ind,
      skipWs_cons_not _ _ (by decide)]
    simp only [parseObjTail]
    simp [parseObjTailCore]
  | .cons k v fs, d, d2, fuel, rest, hf, hr => by
    have hsz : sizeJ v + sizeF fs + 2 ≤ fuel := by
      simp [sizeF] at hf
      omega
    obtain ⟨f, rfl⟩ : ∃ f, fuel = f + 1 := ⟨fuel - 1, by omega⟩
    obtain ⟨g, hg⟩ : ∃ g, f = g + 1 := ⟨f - 1, by omega⟩
    have hinput : serFieldsRest (.cons k v fs) d ++ '\n' :: (ind d2 ++ ('\x7d' :: rest))
        = ',' :: '\n' :: (ind d ++ (quoteStr k ++ ':' :: ' ' :: (serVal v d
          ++ (serFieldsRest fs d ++ '\n' :: (ind d2 ++ ('\x7d' :: rest)))))) := by
      simp [serFieldsRest, List.append_assoc]
    have hZ : noLeadingDigit (serFieldsRest fs d ++ '\n' :: (ind d2 ++ ('\x7d' :: rest))) = true :=
      noLeadingDigit_serFieldsRest fs d _
    have hv : parseVal g (serVal v d
        ++ (serFieldsRest fs d ++ '\n' :: (ind d2 ++ ('\x7d' :: rest))))
        = some (v, serFieldsRest fs d ++ '\n' :: (ind d2 ++ ('\x7d' :: rest))) :=
      parseVal_ser v d g _ (by omega) hZ
    have h1 : parseField f (skipWs ('\n' :: (ind d ++ (quoteStr k
        ++ ':' :: ' ' :: (serVal v d ++ (serFieldsRest fs d
          ++ '\n' :: (ind d2 ++ ('\x7d' :: rest))))))))
        = some ((k, v), serFieldsRest fs d ++ '\n' :: (ind d2 ++ ('\x7d' :: rest))) := by
      rw [skipWs_cons_ws _ _ (by decide), skipWs_ind, skipWs_quoteStr, hg]
      exact parseField_ser k v d g _ hv
    have h2 := parseObjTail_ser fs d d2 f rest (by omega) hr
    rw [hinput, skipWs_cons_not _ _ (by decide)]
    simp only [parseObjTail]
    exact parseObjTailCore_step _ _ _ _ _ _ _ _ h1 h2
end

mutual
theorem sizeJ_le_length : ∀ (j : Json) (d : Nat), sizeJ j ≤ (serVal j d).length
  | .null, d => by simp [sizeJ, serVal]
  | .bool b, d => by cases b <;> simp [sizeJ, serVal]
  | .num n, d => by
    cases n with
    | ofNat m =>
      have h : 0 < (natRepr m).length := List.length_pos.mpr (natRepr_ne_nil m)
      show sizeJ (.num (Int.ofNat m)) ≤ (intRepr (Int.ofNat m)).length
      rw [sizeJ, intRepr]
      omega
    | negSucc m =>
      show sizeJ (.num (Int.negSucc m)) ≤ (intRepr (Int.negSucc m)).length
      rw [sizeJ, intRepr]
      simp
  | .str s, d => by simp [sizeJ, serVal, quoteStr]
  | .arr .nil, d => by simp [sizeJ, sizeL, serVal]
  | .arr (.cons x xs), d => by
    have h1 := sizeJ_le_length x (d + 1)
    have h2 := sizeL_le_length xs (d + 1)
    simp only [sizeJ, sizeL, serVal, List.length_cons, List.length_append]
    omega
  | .obj .nil, d => by simp [sizeJ, sizeF, serVal]
  | .obj (.cons k v fs), d => by
    have h1 := sizeJ_le_length v (d + 1)
    have h2 := sizeF_le_length fs (d + 1)
    simp only [sizeJ, sizeF, serVal, List.length_cons, List.length_append]
    omega

theorem sizeL_le_length : ∀ (xs : JsonList) (d : Nat), sizeL xs ≤ (serListRest xs d).length + 1
  | .nil, d => by simp [sizeL, serListRest]
  | .cons x xs, d => by
    have h1 := sizeJ_le_length x d
    have h2 := sizeL_le_length xs d
    simp only [sizeL, serListRest, List.length_cons, List.length_append]
    omega

theorem sizeF_le_length : ∀ (fs : JsonFields) (d : Nat), sizeF fs ≤ (serFieldsRest fs d).length + 1
  | .nil, d => by simp [sizeF, serFieldsRest]
  | .cons k v fs, d => by
    have h1 := sizeJ_le_length v d
    have h2 := sizeF_le_length fs d
    simp only [sizeF, serFieldsRest, List.length_cons, List.length_append, quoteStr]
    omega
end

/-- Round trip of the JSON text layer: parsing a serialized value yields
the value back. -/
theorem jsonParse_stringify2 (j : Json) : jsonParse (stringify2 j) = some j := by
  have hlen : sizeJ j ≤ (serVal j 0).length + 1 :=
    le_trans (sizeJ_le_length j 0) (by omega)
  have hskip : skipWs (serVal j 0) = serVal j 0 := by
    have h := skipWs_serVal j 0 []
    simpa using h
  have hparse : parseVal ((serVal j 0).length + 1) (serVal j 0) = some (j, []) := by
    have h := parseVal_ser j 0 ((serVal j 0).length + 1) [] hlen rfl
    simpa using h
  show (match parseVal ((stringify2 j).length + 1) (skipWs (stringify2 j).data) with
    | some (v, r) => if skipWs r = [] then some v else none
    | none => none) = some j
  have hdata : (stringify2 j).data = serVal j 0 := rfl
  have hlen2 : (stringify2 j).length = (serVal j 0).length := rfl
  rw [hdata, hlen2, hskip, hparse]
  simp [skipWs]

/-! ## Filesystem model (`fs`, `path`)

Paths are lists of components; `path.join` is list append.  A filesystem
state holds the set of existing directories and a map from file paths to
their string contents.  `fs.writeFileSync` is modelled as one atomic
replacement of the file's visible content, and an environment of injected
faults models runtime errors (permission denied, disk full) that the
state itself does not force. -/

/-- Filesystem state. -/
structure FsState where
  dirs : List (List String)
  files : List (List String × String)
deriving DecidableEq

/-- Injected runtime faults for the `fs` calls. -/
structure FsEnv where
  mkdirFails : List String → Bool
  writeFails : List String → Bool

/-- The fault-free environment. -/
def FsEnv.ok : FsEnv := ⟨fun _ => false, fun _ => false⟩

/-- Errors thrown by the modelled `fs` calls. -/
inductive FsError where
  | EPERM
  | EEXIST
  | ENOENT
  | EISDIR
  | ENOSPC
deriving DecidableEq

/-- Content stored for path `p` (the most recent write shadows older
entries). -/
def lookupFile : List (List String × String) → List String → Option String
  | [], _ => none
  | (q, c) :: rest, p => if q = p then some c else lookupFile rest p

/-- `fs.existsSync`. -/
def existsSync (s : FsState) (p : List String) : Bool :=
  decide (p ∈ s.dirs) || (lookupFile s.files p).isSome

/-- `fs.mkdirSync` without the `recursive` option: creates `p` only when
its parent directory exists; throws on an injected fault, an existing
entry at `p`, or a missing parent. -/
def mkdirSync (env : FsEnv) (s : FsState) (p : List String) : Except FsError FsState :=
  if env.mkdirFails p then .error .EPERM
  else if existsSync s p then .error .EEXIST
  else if decide (p.dropLast ∈ s.dirs) then .ok { s with dirs := p :: s.dirs }
  else .error .ENOENT

/-- `fs.writeFileSync` with string content: atomically replaces the
visible content of `p` in one step; throws on an injected fault, a
directory at `p`, or a missing parent directory. -/
def writeFileSync (env : FsEnv) (s : FsState) (p : List String) (content : String) :
    Except FsError FsState :=
  if env.writeFails p then .error .ENOSPC
  else if decide (p ∈ s.dirs) then .error .EISDIR
  else if decide (p.dropLast ∈ s.dirs) then .ok { s with files := (p, content) :: s.files }
  else .error .ENOENT

/-- The arguments of `writeJsonFiles` (interface `writeJsonFilesArguments`
in src/src/env.d.ts), with the JSON-compatible `dataToWrite` modelled by
`Json`. -/
structure WriteArgs where
  dirPath : List String
  fileName : String
  databaseName : String
  dataToWrite : Json

/-- `path.join(dirPath, databaseName)`, the `folderPath` of
`writeJsonFiles`. -/
def folderPath (a : WriteArgs) : List String := a.dirPath ++ [a.databaseName]

/-- The `finalFilePath` of `writeJsonFiles`:
`path.join(dirPath, databaseName, fileName)` with `".json"` appended to
the last component. -/
def finalFilePath (a : WriteArgs) : List String :=
  folderPath a ++ [a.fileName ++ ".json"]

/-- One mutating filesystem call attempted by `writeJsonFiles`. -/
inductive FsOp where
  | mkdir (p : List String)
  | write (p : List String) (content : String)
deriving DecidableEq

/-- Shallow embedding of `writeJsonFiles` (src/unnamed/part_001).  The
source computes `folderPath` and `finalFilePath`, serializes
`dataToWrite` with `JSON.stringify(dataToWrite, null, 2)` (a pure
computation, completed before any filesystem call), creates `folderPath`
with `fs.mkdirSync` when `fs.existsSync` reports it absent, writes the
serialized payload with `fs.writeFileSync`, and returns `finalFilePath`;
the surrounding `try`/`catch` turns any thrown error into a logged
`return false`.  The model returns the resulting state, the trace of
attempted mutating calls, and the return value (`some finalFilePath`, or
`none` for `false`). -/
def writeJsonFiles (env : FsEnv) (a : WriteArgs) (s : FsState) :
    FsState × List FsOp × Option (List String) :=
  let fp := folderPath a
  let ffp := finalFilePath a
  let convertedJsonData := stringify2 a.dataToWrite
  if existsSync s fp then
    match writeFileSync env s ffp convertedJsonData with
    | .ok s2 => (s2, [.write ffp convertedJsonData], some ffp)
    | .error _ => (s, [.write ffp convertedJsonData], none)
  else
    match mkdirSync env s fp with
    | .error _ => (s, [.mkdir fp], none)
    | .ok s1 =>
      match writeFileSync env s1 ffp convertedJsonData with
      | .ok s2 => (s2, [.mkdir fp, .write ffp convertedJsonData], some ffp)
      | .error _ => (s1, [.mkdir fp, .write ffp convertedJsonData], none)

theorem dropLast_append_singleton (l : List String) (x : String) : (l ++ [x]).dropLast = l := by
  simp

theorem append_singleton_ne (l : List String) (x : String) : l ++ [x] ≠ l := by
  intro h
  have hlen := congrArg List.length h
  simp at hlen

/-- Fault-free successful run of `writeJsonFiles` from a state in which
the root directory exists, the folder path is not a file, and the final
path is not a directory: the full resulting state, trace and return
value. -/
theorem writeJsonFiles_ok (a : WriteArgs) (s : FsState)
    (h1 : a.dirPath ∈ s.dirs)
    (h2 : lookupFile s.files (folderPath a) = none)
    (h3 : finalFilePath a ∉ s.dirs) :
    writeJsonFiles FsEnv.ok a s =
      (⟨if folderPath a ∈ s.dirs then s.dirs else folderPath a :: s.dirs,
        (finalFilePath a, stringify2 a.dataToWrite) :: s.files⟩,
       if folderPath a ∈ s.dirs then
         [FsOp.write (finalFilePath a) (stringify2 a.dataToWrite)]
       else
         [FsOp.mkdir (folderPath a), FsOp.write (finalFilePath a) (stringify2 a.dataToWrite)],
       some (finalFilePath a)) := by
  have hdrop : (finalFilePath a).dropLast = folderPath a :=
    dropLast_append_singleton _ _
  have hdrop2 : (folderPath a).dropLast = a.dirPath :=
    dropLast_append_singleton _ _
  by_cases hfp : folderPath a ∈ s.dirs
  · have hex : existsSync s (folderPath a) = true := by
      simp [existsSync, hfp]
    have hw : writeFileSync FsEnv.ok s (finalFilePath a) (stringify2 a.dataToWrite)
        = .ok { s with files := (finalFilePath a, stringify2 a.dataToWrite) :: s.files } := by
      rw [writeFileSync, if_neg (by simp [FsEnv.ok]), if_neg (by simpa using h3),
        if_pos (by rw [hdrop]; simpa using hfp)]
    simp [writeJsonFiles, hex, hw, hfp]
  · have hex : existsSync s (folderPath a) = false := by
      simp [existsSync, hfp, h2]
    have hmk : mkdirSync FsEnv.ok s (folderPath a)
        = .ok { s with dirs := folderPath a :: s.dirs } := by
      rw [mkdirSync, if_neg (by simp [FsEnv.ok]), if_neg (by simp [hex]),
        if_pos (by rw [hdrop2]; simpa using h1)]
    have hffp : finalFilePath a ∉ folderPath a :: s.dirs := by
      intro hmem
      rcases List.mem_cons.mp hmem with heq | hmem2
      · exact append_singleton_ne (folderPath a) (a.fileName ++ ".json") heq
      · exact h3 hmem2
    have hw : writeFileSync FsEnv.ok { s with dirs := folderPath a :: s.dirs }
        (finalFilePath a) (stringify2 a.dataToWrite)
        = .ok ⟨folderPath a :: s.dirs, (finalFilePath a, stringify2 a.dataToWrite) :: s.files⟩ := by
      rw [writeFileSync, if_neg (by simp [FsEnv.ok]), if_neg (by simpa using hffp),
        if_pos (by rw [hdrop]; simp)]
    simp [writeJsonFiles, hex, hmk, hw, hfp]

theorem mkdirSync_ok_inv (env : FsEnv) (s : FsState) (p : List String) (s1 : FsState)
    (h : mkdirSync env s p = .ok s1) : s1 = { s with dirs := p :: s.dirs } := by
  rw [mkdirSync] at h
  split_ifs at h
  all_goals simp_all

theorem writeFileSync_ok_inv (env : FsEnv) (s : FsState) (p : List String) (content : String)
    (s2 : FsState) (h : writeFileSync env s p content = .ok s2) :
    s2 = { s with files := (p, content) :: s.files } := by
  rw [writeFileSync] at h
  split_ifs at h
  all_goals simp_all

/-! ## Claim theorems for the File Writer -/

/-- Claim C2: `writeJsonFiles` serializes the whole snapshot into one
in-memory payload before any filesystem write call: every write call in
its trace carries the complete serialization of `dataToWrite`, and the
visible content of the final file after the call is either its previous
content or the complete serialization — never a truncated one. -/
theorem writeJsonFiles_complete_payload (env : FsEnv) (a : WriteArgs) (s : FsState) :
    (∀ p c, FsOp.write p c ∈ (writeJsonFiles env a s).2.1 → c = stringify2 a.dataToWrite) ∧
    (lookupFile (writeJsonFiles env a s).1.files (finalFilePath a)
        = lookupFile s.files (finalFilePath a) ∨
      lookupFile (writeJsonFiles env a s).1.files (finalFilePath a)
        = some (stringify2 a.dataToWrite)) := by
  rw [writeJsonFiles]
  split
  · split
    · rename_i s2 hs2
      rw [writeFileSync_ok_inv env s _ _ s2 hs2]
      constructor
      · intro p c hmem
        simp at hmem
        exact hmem.2
      · right
        simp [lookupFile]
    · constructor
      · intro p c hmem
        simp at hmem
        exact hmem.2
      · left
        rfl
  · split
    · constructor
      · intro p c hmem
        simp at hmem
      · left
        rfl
    · rename_i s1 hs1
      rw [mkdirSync_ok_inv env s _ s1 hs1]
      split
      · rename_i s2 hs2
        rw [writeFileSync_ok_inv env _ _ _ s2 hs2]
        constructor
        · intro p c hmem
          simp at hmem
          exact hmem.2
        · right
          simp [lookupFile]
      · constructor
        · intro p c hmem
          simp at hmem
          exact hmem.2
        · left
          rfl

/-- Witness for C2 at a concrete input. -/
theorem writeJsonFiles_complete_payload_witness :
    FsOp.write ["out", "shop", "users.json"] "null"
        ∈ (writeJsonFiles FsEnv.ok ⟨["out"], "users", "shop", Json.null⟩
          ⟨[["out"]], []⟩).2.1 ∧
      "null" = stringify2 Json.null := by
  refine ⟨by decide, ?_⟩
  exact ((writeJsonFiles_complete_payload FsEnv.ok ⟨["out"], "users", "shop", Json.null⟩
    ⟨[["out"]], []⟩).1 ["out", "shop", "users.json"] "null" (by decide)).symm ▸ rfl

/-- Claim C3: with an existing root directory, `writeJsonFiles` creates
the `dirPath/databaseName` subdirectory when it is absent (a pre-existing
directory triggers no creation), persists the payload serialized as
pretty-printed JSON with 2-space indentation at
`dirPath/databaseName/fileName.json`, and returns that final path. -/
theorem writeJsonFiles_spec (a : WriteArgs) (s : FsState)
    (h1 : a.dirPath ∈ s.dirs)
    (h2 : lookupFile s.files (folderPath a) = none)
    (h3 : finalFilePath a ∉ s.dirs) :
    (writeJsonFiles FsEnv.ok a s).2.2 = some (finalFilePath a) ∧
    lookupFile (writeJsonFiles FsEnv.ok a s).1.files (finalFilePath a)
      = some (stringify2 a.dataToWrite) ∧
    folderPath a ∈ (writeJsonFiles FsEnv.ok a s).1.dirs ∧
    (folderPath a ∈ s.dirs →
      (writeJsonFiles FsEnv.ok a s).2.1
        = [FsOp.write (finalFilePath a) (stringify2 a.dataToWrite)]) ∧
    (folderPath a ∉ s.dirs →
      (writeJsonFiles FsEnv.ok a s).2.1
        = [FsOp.mkdir (folderPath a),
           FsOp.write (finalFilePath a) (stringify2 a.dataToWrite)]) := by
  rw [writeJsonFiles_ok a s h1 h2 h3]
  by_cases hfp : folderPath a ∈ s.dirs <;> simp [hfp, lookupFile]

/-- Witness for C3 at a concrete input. -/
theorem writeJsonFiles_spec_witness :
    (writeJsonFiles FsEnv.ok ⟨["out"], "users", "shop", Json.null⟩ ⟨[["out"]], []⟩).2.2
      = some ["out", "shop", "users.json"] ∧
    lookupFile (writeJsonFiles FsEnv.ok ⟨["out"], "users", "shop", Json.null⟩
        ⟨[["out"]], []⟩).1.files ["out", "shop", "users.json"] = some "null" := by
  have h := writeJsonFiles_spec ⟨["out"], "users", "shop", Json.null⟩ ⟨[["out"]], []⟩
    (by decide) rfl (by decide)
  exact ⟨h.1, h.2.1⟩

/-- Claim C5: round trip — writing a snapshot and parsing the resulting
file's JSON content back yields the snapshot. -/
theorem writeJsonFiles_roundtrip (a : WriteArgs) (s : FsState)
    (h1 : a.dirPath ∈ s.dirs)
    (h2 : lookupFile s.files (folderPath a) = none)
    (h3 : finalFilePath a ∉ s.dirs) :
    ∃ content, lookupFile (writeJsonFiles FsEnv.ok a s).1.files (finalFilePath a)
        = some content ∧ jsonParse content = some a.dataToWrite := by
  refine ⟨stringify2 a.dataToWrite, ?_, jsonParse_stringify2 a.dataToWrite⟩
  rw [writeJsonFiles_ok a s h1 h2 h3]
  simp [lookupFile]

/-- Witness for C5 at a concrete input. -/
theorem writeJsonFiles_roundtrip_witness :
    ∃ content,
      lookupFile (writeJsonFiles FsEnv.ok
          ⟨["out"], "users", "shop",
            Json.arr (JsonList.cons (Json.num 1) JsonList.nil)⟩
          ⟨[["out"]], []⟩).1.files ["out", "shop", "users.json"] = some content ∧
      jsonParse content
        = some (Json.arr (JsonList.cons (Json.num 1) JsonList.nil)) :=
  writeJsonFiles_roundtrip
    ⟨["out"], "users", "shop", Json.arr (JsonList.cons (Json.num 1) JsonList.nil)⟩
    ⟨[["out"]], []⟩ (by decide) rfl (by decide)

/-- Claim C6: `writeJsonFiles` never propagates an error to its caller:
for every fault environment, input and state, it returns either the final
path or the failure signal (the `false` of the source, modelled `none`);
the `try`/`catch` turns every thrown filesystem error into the failure
signal. -/
theorem writeJsonFiles_never_throws (env : FsEnv) (a : WriteArgs) (s : FsState) :
    (writeJsonFiles env a s).2.2 = some (finalFilePath a) ∨
      (writeJsonFiles env a s).2.2 = none := by
  rw [writeJsonFiles]
  split
  · split
    · left
      rfl
    · right
      rfl
  · split
    · right
      rfl
    · split
      · left
        rfl
      · right
        rfl

/-- Claim C7: the File Writer is deterministic in its data input: writing
the same snapshot twice in a row returns the same path both times and
leaves the same (byte-identical) visible file content after each run. -/
theorem writeJsonFiles_idempotent (a : WriteArgs) (s : FsState)
    (h1 : a.dirPath ∈ s.dirs)
    (h2 : lookupFile s.files (folderPath a) = none)
    (h3 : finalFilePath a ∉ s.dirs) :
    (writeJsonFiles FsEnv.ok a s).2.2 = some (finalFilePath a) ∧
    (writeJsonFiles FsEnv.ok a (writeJsonFiles FsEnv.ok a s).1).2.2
      = (writeJsonFiles FsEnv.ok a s).2.2 ∧
    lookupFile (writeJsonFiles FsEnv.ok a s).1.files (finalFilePath a)
      = some (stringify2 a.dataToWrite) ∧
    lookupFile (writeJsonFiles FsEnv.ok a (writeJsonFiles FsEnv.ok a s).1).1.files
        (finalFilePath a)
      = lookupFile (writeJsonFiles FsEnv.ok a s).1.files (finalFilePath a) := by
  have hne : finalFilePath a ≠ folderPath a := by
    intro h
    exact append_singleton_ne (folderPath a) (a.fileName ++ ".json") h
  rw [writeJsonFiles_ok a s h1 h2 h3]
  have h1b : a.dirPath ∈ (if folderPath a ∈ s.dirs then s.dirs else folderPath a :: s.dirs) := by
    by_cases hfp : folderPath a ∈ s.dirs <;> simp [hfp, h1]
  have h2b : lookupFile ((finalFilePath a, stringify2 a.dataToWrite) :: s.files)
      (folderPath a) = none := by
    rw [lookupFile, if_neg hne]
    exact h2
  have h3b : finalFilePath a
      ∉ (if folderPath a ∈ s.dirs then s.dirs else folderPath a :: s.dirs) := by
    by_cases hfp : folderPath a ∈ s.dirs <;> simp [hfp, h3, hne]
  have hsecond := writeJsonFiles_ok a
    ⟨if folderPath a ∈ s.dirs then s.dirs else folderPath a :: s.dirs,
      (finalFilePath a, stringify2 a.dataToWrite) :: s.files⟩ h1b h2b h3b
  rw [hsecond]
  simp [lookupFile]

/-- Witness for C7 at a concrete input. -/
theorem writeJsonFiles_idempotent_witness :
    (writeJsonFiles FsEnv.ok ⟨["out"], "users", "shop", Json.bool true⟩
        ⟨[["out"]], []⟩).2.2 = some ["out", "shop", "users.json"] ∧
    (writeJsonFiles FsEnv.ok ⟨["out"], "users", "shop", Json.bool true⟩
        (writeJsonFiles FsEnv.ok ⟨["out"], "users", "shop", Json.bool true⟩
          ⟨[["out"]], []⟩).1).2.2
      = (writeJsonFiles FsEnv.ok ⟨["out"], "users", "shop", Json.bool true⟩
          ⟨[["out"]], []⟩).2.2 := by
  have h := writeJsonFiles_idempotent ⟨["out"], "users", "shop", Json.bool true⟩
    ⟨[["out"]], []⟩ (by decide) rfl (by decide)
  exact ⟨h.1, h.2.1⟩

/-- Claim C8: when the root directory `dirPath` does not exist,
`writeJsonFiles` attempts only the non-recursive creation of the
`dirPath/databaseName` subdirectory (which throws, since the parent is
missing), leaves the filesystem unchanged — in particular it does not
create `dirPath` — and returns the failure signal (`false`, modelled
`none`) instead of a path, under every fault environment. -/
theorem writeJsonFiles_missing_root (env : FsEnv) (a : WriteArgs) (s : FsState)
    (hroot : a.dirPath ∉ s.dirs)
    (hex : existsSync s (folderPath a) = false) :
    writeJsonFiles env a s = (s, [FsOp.mkdir (folderPath a)], none) := by
  have hdrop2 : (folderPath a).dropLast = a.dirPath :=
    dropLast_append_singleton _ _
  have hmk : ∃ e, mkdirSync env s (folderPath a) = .error e := by
    rw [mkdirSync]
    by_cases henv : env.mkdirFails (folderPath a)
    · exact ⟨.EPERM, by rw [if_pos henv]⟩
    · refine ⟨.ENOENT, ?_⟩
      rw [if_neg henv, if_neg (by simp [hex]), if_neg (by rw [hdrop2]; simpa using hroot)]
  obtain ⟨e, he⟩ := hmk
  rw [writeJsonFiles]
  simp [hex, he]

/-- Witness for C8 at a concrete input. -/
theorem writeJsonFiles_missing_root_witness :
    writeJsonFiles FsEnv.ok ⟨["gone"], "users", "shop", Json.null⟩ ⟨[["out"]], []⟩
      = (⟨[["out"]], []⟩, [FsOp.mkdir ["gone", "shop"]], none) :=
  writeJsonFiles_missing_root FsEnv.ok ⟨["gone"], "users", "shop", Json.null⟩
    ⟨[["out"]], []⟩ (by decide) rfl

/-! ## Claim theorems for the remaining components -/

/-- Claim C9: `getCurrentTime` always returns a string of the exact shape
`HH:MM:SS` — three two-digit zero-padded decimal fields separated by
colons, hence exactly 8 characters — for every clock reading. -/
theorem getCurrentTime_format (h m s : Nat) (hh : h < 24) (hm : m < 60) (hs : s < 60) :
    isHHMMSS (getCurrentTime h m s) = true ∧ (getCurrentTime h m s).length = 8 := by
  obtain ⟨a, b, hab, ha, hb⟩ :=
    isTwoDigits_shape _ (isTwoDigits_padStart2_natRepr h (by omega))
  obtain ⟨c, d, hcd, hc, hd⟩ :=
    isTwoDigits_shape _ (isTwoDigits_padStart2_natRepr m hm)
  obtain ⟨e, f, hef, he, hf⟩ :=
    isTwoDigits_shape _ (isTwoDigits_padStart2_natRepr s hs)
  rw [getCurrentTime, hab, hcd, hef]
  constructor
  · simp [isHHMMSS, isTwoDigits, ha, hb, hc, hd, he, hf]
  · simp [String.length]

/-- Witness for C9 at a concrete clock reading. -/
theorem getCurrentTime_format_witness :
    isHHMMSS (getCurrentTime 7 30 5) = true ∧ (getCurrentTime 7 30 5).length = 8 :=
  getCurrentTime_format 7 30 5 (by decide) (by decide) (by decide)

/-- Claim C10: the setup wizard's list-answer processing can never
produce an empty array: the empty answer yields the one-element array
containing the empty string, and every answer yields at least one
element. -/
theorem processListAnswer_nonempty :
    processListAnswer "" = [""] ∧ ∀ s : String, 1 ≤ (processListAnswer s).length := by
  constructor
  · rfl
  · intro s
    rw [processListAnswer, List.length_map, List.length_map]
    have h := List.length_pos.mpr (splitChar_ne_nil ',' s.data)
    omega

/-- Claim C4: an interval below 5000 (in particular 4999) is rejected at
configuration time with `process.exit(1)` — a non-zero exit, before any
cycle can run — while exactly 5000 is accepted. -/
theorem interval_floor :
    (∀ n : Int, n < 5000 → validateInterval n = .exitProcess 1) ∧
    validateInterval 4999 = .exitProcess 1 ∧
    validateInterval 5000 = .ok 5000 ∧ (1 : Nat) ≠ 0 := by
  refine ⟨?_, by decide, by decide, by decide⟩
  intro n h
  rw [validateInterval]
  by_cases h0 : n = 0
  · rw [if_pos h0]
  · rw [if_neg h0, if_pos h]

/-- Witness for C4 at the boundary input. -/
theorem interval_floor_witness : validateInterval 4999 = .exitProcess 1 :=
  interval_floor.1 4999 (by decide)

/-- Claim C1 as stated is false: with whitelist `["shop"]`, empty
blacklist, and an empty remote schema, the pair `("shop", "users")`
satisfies "database in whitelist and pair not in blacklist" yet is not in
the resolver's output — membership also requires the pair to exist in the
available remote schema. -/
theorem resolve_claim_counterexample :
    ¬ ((("shop", "users") ∈ resolve ["shop"] [] []) ↔
      ("shop" ∈ ["shop"] ∧ ("shop", "users") ∉ ([] : List (String × String)))) := by
  decide

/-- Claim C1, amended: for every whitelist, blacklist and available
remote schema, `resolve` emits the target `(d, c)` iff `(d, c)` is
present in the available schema, `d` is whitelisted and `(d, c)` is not
blacklisted; and on the spec's scenario (whitelist `["shop"]`, blacklist
`["shop/sessions"]`, remote `shop` with `users`, `sessions` and `logs`
with `events`) the resolved targets are exactly `[("shop", "users")]`,
while an empty whitelist resolves to the empty list. -/
theorem resolve_spec :
    (∀ (W : List String) (B : List (String × String))
        (avail : List (String × List String)) (d c : String),
      (d, c) ∈ resolve W B avail ↔
        ((∃ cols, (d, cols) ∈ avail ∧ c ∈ cols) ∧ d ∈ W ∧ (d, c) ∉ B)) ∧
    (∀ (W : List String) (B : List (String × String))
        (avail : List (String × List String)) (d c : String),
      (d, c) ∈ resolve W B avail → (d, c) ∈ resolve W [] avail) ∧
    resolve ["shop"] [splitTarget "shop/sessions"]
        [("shop", ["users", "sessions"]), ("logs", ["events"])]
      = [("shop", "users")] ∧
    resolve [] [splitTarget "shop/sessions"]
        [("shop", ["users", "sessions"]), ("logs", ["events"])]
      = [] := by
  refine ⟨fun W B avail d c => resolve_mem W B avail d c, ?_, by decide, by decide⟩
  intro W B avail d c h
  obtain ⟨ha, hw, _⟩ := (resolve_mem W B avail d c).mp h
  exact (resolve_mem W [] avail d c).mpr ⟨ha, hw, by simp⟩

/-- Witness for C1's amended statement at a concrete instance. -/
theorem resolve_spec_witness :
    ("shop", "users") ∈ resolve ["shop"] [("shop", "sessions")] [("shop", ["users", "sessions"])] :=
  (resolve_spec.1 ["shop"] [("shop", "sessions")] [("shop", ["users", "sessions"])]
    "shop" "users").mpr ⟨⟨["users", "sessions"], by decide, by decide⟩, by decide, by decide⟩

/-- Witness for C6 at a concrete input. -/
theorem writeJsonFiles_never_throws_witness :
    (writeJsonFiles FsEnv.ok ⟨["out"], "users", "shop", Json.null⟩ ⟨[["out"]], []⟩).2.2
        = some (finalFilePath ⟨["out"], "users", "shop", Json.null⟩) ∨
      (writeJsonFiles FsEnv.ok ⟨["out"], "users", "shop", Json.null⟩ ⟨[["out"]], []⟩).2.2
        = none :=
  writeJsonFiles_never_throws FsEnv.ok ⟨["out"], "users", "shop", Json.null⟩ ⟨[["out"]], []⟩

/-- Witness for C10 at a concrete answer. -/
theorem processListAnswer_nonempty_witness : 1 ≤ (processListAnswer "a, b").length :=
  processListAnswer_nonempty.2 "a, b"

end Rage
